import Mathlib

/-!
# Verification of the lotus-bot wallet/UTXO engine

Shallow embedding of the wallet engine of `lotus-bot`
(`src/lib/wallet.ts`, `src/lib/handler.ts`, `src/lib/database.ts`)
together with proofs of the specified properties.

Conventions:
* JS numbers holding satoshi amounts are embedded as `Int` (all amounts in
  the claims are small enough that JS numbers behave as exact integers);
  where `NaN` propagation matters a dedicated `JsNum` type is used.
* The in-memory wallet state (`WalletManager.keys` / `WalletManager.accounts`)
  is embedded as association lists keyed by `userId` / `accountId`,
  preserving JS object-value iteration order.
* Database records drop their `timestamp` fields (wall-clock input,
  irrelevant to every property proved here).
-/

namespace LotusBot

/-- `ParsedUtxo` from `src/lib/wallet.ts`: one unspent output tracked for a
user.  The source stores `value` as a decimal string and converts with
`Number(...)` wherever it is used arithmetically; it is embedded directly
as the numeric value. -/
structure ParsedUtxo where
  txid : String
  outIdx : Nat
  value : Int
deriving Repr, DecidableEq

/-- `AccountUtxo` from `src/lib/wallet.ts`: a `ParsedUtxo` tagged with the
owning `userId`. -/
structure AccountUtxo where
  txid : String
  outIdx : Nat
  value : Int
  userId : String
deriving Repr, DecidableEq

/-- `WalletKey` from `src/lib/wallet.ts`, restricted to the fields the
wallet logic reads: the hex of the key's output script (`script.toHex()`)
and the in-memory UTXO set.  The signing key, address and script type only
feed the external bitcore/chronik libraries and carry no structure used by
the claims; the opaque `scriptHex` also stands in for the address
identity of the key. -/
structure WalletKey where
  scriptHex : String
  utxos : List ParsedUtxo
deriving Repr, DecidableEq

/-- The in-memory state of `WalletManager`:
`accounts` maps each `accountId` to its member `userId`s,
`keys` maps each `userId` to its `WalletKey`.
Both are association lists in JS object iteration order. -/
structure WalletState where
  accounts : List (String × List String)
  keys : List (String × WalletKey)
deriving Repr, DecidableEq

/-- `this.keys[userId]` lookup. -/
def lookupKey (st : WalletState) (userId : String) : Option WalletKey :=
  match st.keys.find? (fun p => p.1 == userId) with
  | some p => some p.2
  | none => none

/-- `this.accounts[accountId]` lookup. -/
def getAccount (accs : List (String × List String)) (a : String) :
    Option (List String) :=
  match accs.find? (fun p => p.1 == a) with
  | some p => some p.2
  | none => none

/-- Replace the UTXO list of `userId`'s `WalletKey`
(`this.keys[userId].utxos = ...`). -/
def setUtxos (st : WalletState) (userId : String) (utxos : List ParsedUtxo) :
    WalletState :=
  { st with keys := st.keys.map (fun p =>
      if p.1 == userId then (p.1, { p.2 with utxos := utxos }) else p) }

/-- `WalletManager._isExistingUtxo` (`src/lib/wallet.ts`): does the user's
UTXO set already hold an entry with this `(txid, outIdx)`? -/
def _isExistingUtxo (k : WalletKey) (utxo : ParsedUtxo) : Bool :=
  k.utxos.any (fun existing =>
    existing.txid == utxo.txid && existing.outIdx == utxo.outIdx)

/-- One output of the transaction fetched by `chronik.tx(msg.txid)`:
its output script hex and its value. -/
structure TxOutput where
  scriptHex : String
  value : Int
deriving Repr, DecidableEq

/-- The inner double loop of `WalletManager._chronikHandleWsMessage`
(`src/lib/wallet.ts`): find the first user (scanning accounts in order,
then the account's members in order) whose key's output script equals the
output's script. -/
def findUserForScript (st : WalletState) (scriptHex : String) :
    Option String :=
  go st.accounts
where
  go : List (String × List String) → Option String
  | [] => none
  | (_, userIds) :: rest =>
    match userIds.find? (fun userId =>
        match lookupKey st userId with
        | some k => scriptHex == k.scriptHex
        | none => false) with
    | some userId => some userId
    | none => go rest

/-- Processing of a single tx output inside
`WalletManager._chronikHandleWsMessage`: if some tracked user's script
matches, record the UTXO for that user unless an entry with the same
`(txid, outIdx)` already exists. -/
def processOutput (st : WalletState) (txid : String) (outIdx : Nat)
    (out : TxOutput) : WalletState :=
  match findUserForScript st out.scriptHex with
  | none => st
  | some userId =>
    match lookupKey st userId with
    | none => st
    | some k =>
      let parsedUtxo : ParsedUtxo := ⟨txid, outIdx, out.value⟩
      if _isExistingUtxo k parsedUtxo then st
      else setUtxos st userId (k.utxos ++ [parsedUtxo])

/-- A Chronik websocket message, as discriminated by
`_chronikHandleWsMessage`: either `AddedToMempool` for a txid whose fetched
outputs are given, or any other message type (ignored by the handler). -/
inductive WsMsg where
  | addedToMempool (txid : String) (outputs : List TxOutput)
  | other
deriving Repr, DecidableEq

/-- `WalletManager._chronikHandleWsMessage` (`src/lib/wallet.ts`): ignore
anything but `AddedToMempool`; otherwise process every output of the
transaction in index order. -/
def _chronikHandleWsMessage (st : WalletState) (msg : WsMsg) : WalletState :=
  match msg with
  | .other => st
  | .addedToMempool txid outputs =>
    (outputs.enum).foldl (fun s io => processOutput s txid io.1 io.2) st

/-- Fold of the websocket handler over a sequence of delivered messages. -/
def processMsgs (st : WalletState) (msgs : List WsMsg) : WalletState :=
  msgs.foldl _chronikHandleWsMessage st

/-- The outpoint `(txid, outIdx)` of a tracked UTXO. -/
def outpointOf (u : ParsedUtxo) : String × Nat := (u.txid, u.outIdx)

/-- The in-memory ledger invariant: no user's UTXO list holds two entries
with the same `(txid, outIdx)`. -/
def ledgerNodup (st : WalletState) : Prop :=
  ∀ p ∈ st.keys, (p.2.utxos.map outpointOf).Nodup

end LotusBot

namespace LotusBot

/-! ### Helper lemmas for the websocket handler -/

theorem assoc_find?_map {β : Type} (f : String × β → String × β)
    (hf : ∀ p, (f p).1 = p.1) (l : List (String × β)) (v : String) :
    (l.map f).find? (fun p => p.1 == v) = (l.find? (fun p => p.1 == v)).map f := by
  induction l with
  | nil => rfl
  | cons p rest ih =>
    simp only [List.map_cons, List.find?_cons, hf p]
    by_cases h : (p.1 == v) = true
    · simp [h]
    · simp [h, ih]

theorem lookupKey_setUtxos (st : WalletState) (uid v : String)
    (l : List ParsedUtxo) :
    lookupKey (setUtxos st uid l) v
      = (lookupKey st v).map
          (fun k => if v == uid then { k with utxos := l } else k) := by
  unfold lookupKey setUtxos
  rw [assoc_find?_map (fun p =>
      if p.1 == uid then (p.1, { p.2 with utxos := l }) else p)
    (fun p => by by_cases h : (p.1 == uid) = true <;> simp [h]) st.keys v]
  cases hfind : st.keys.find? (fun p => p.1 == v) with
  | none => rfl
  | some p =>
    have hv : p.1 = v := by
      have := List.find?_some hfind
      simpa using this
    by_cases h : (v == uid) = true
    · have huid : p.1 = uid := by rw [hv]; exact eq_of_beq h
      simp [huid, h]
    · have huid : ¬ p.1 = uid := by
        rw [hv]; intro e; exact h (beq_iff_eq.mpr e)
      simp [huid, h]

theorem lookupKey_setUtxos_scriptHex (st : WalletState) (uid v : String)
    (l : List ParsedUtxo) :
    (lookupKey (setUtxos st uid l) v).map WalletKey.scriptHex
      = (lookupKey st v).map WalletKey.scriptHex := by
  rw [lookupKey_setUtxos]
  cases lookupKey st v with
  | none => rfl
  | some k => by_cases h : (v == uid) = true <;> simp [h]

theorem setUtxos_accounts (st : WalletState) (uid : String)
    (l : List ParsedUtxo) : (setUtxos st uid l).accounts = st.accounts := rfl

theorem findUser_go_congr (st st' : WalletState)
    (hk : ∀ v, (lookupKey st' v).map WalletKey.scriptHex
      = (lookupKey st v).map WalletKey.scriptHex)
    (s : String) (accs : List (String × List String)) :
    findUserForScript.go st' s accs = findUserForScript.go st s accs := by
  induction accs with
  | nil => rfl
  | cons p rest ih =>
    simp only [findUserForScript.go]
    have hfind : p.2.find? (fun userId =>
        match lookupKey st' userId with
        | some k => s == k.scriptHex
        | none => false)
      = p.2.find? (fun userId =>
        match lookupKey st userId with
        | some k => s == k.scriptHex
        | none => false) := by
      congr 1
      funext v
      have h := hk v
      cases hv : lookupKey st v with
      | none =>
        rw [hv] at h
        cases hv' : lookupKey st' v with
        | none => rfl
        | some k' => rw [hv'] at h; simp at h
      | some k =>
        rw [hv] at h
        cases hv' : lookupKey st' v with
        | none => rw [hv'] at h; simp at h
        | some k' =>
          rw [hv'] at h
          simp only [Option.map_some', Option.some.injEq] at h
          simp [h]
    rw [hfind]
    cases p.2.find? (fun userId =>
        match lookupKey st userId with
        | some k => s == k.scriptHex
        | none => false) with
    | none => exact ih
    | some u => rfl

theorem findUserForScript_setUtxos (st : WalletState) (uid : String)
    (l : List ParsedUtxo) (s : String) :
    findUserForScript (setUtxos st uid l) s = findUserForScript st s := by
  unfold findUserForScript
  rw [setUtxos_accounts]
  exact findUser_go_congr st (setUtxos st uid l)
    (fun v => lookupKey_setUtxos_scriptHex st uid v l) s st.accounts

/-- The outpoint `p` is recorded for user `uid` in state `st`. -/
def pairMem (st : WalletState) (uid : String) (p : String × Nat) : Prop :=
  ∃ k, lookupKey st uid = some k ∧ p ∈ k.utxos.map outpointOf

theorem findUser_go_lookup (st : WalletState) (s : String)
    (accs : List (String × List String)) (uid : String)
    (h : findUserForScript.go st s accs = some uid) :
    ∃ k, lookupKey st uid = some k ∧ (s == k.scriptHex) = true := by
  induction accs with
  | nil => simp [findUserForScript.go] at h
  | cons p rest ih =>
    simp only [findUserForScript.go] at h
    cases hfind : p.2.find? (fun userId =>
        match lookupKey st userId with
        | some k => s == k.scriptHex
        | none => false) with
    | none => rw [hfind] at h; exact ih h
    | some u =>
      rw [hfind] at h
      simp only [Option.some.injEq] at h
      have hp := List.find?_some hfind
      rw [h] at hp
      cases hk : lookupKey st uid with
      | none => rw [hk] at hp; simp at hp
      | some k => rw [hk] at hp; exact ⟨k, rfl, hp⟩

theorem findUser_lookup (st : WalletState) (s uid : String)
    (h : findUserForScript st s = some uid) :
    ∃ k, lookupKey st uid = some k ∧ (s == k.scriptHex) = true := by
  unfold findUserForScript at h
  exact findUser_go_lookup st s st.accounts uid h

theorem isExisting_iff (k : WalletKey) (txid : String) (i : Nat) (v : Int) :
    _isExistingUtxo k ⟨txid, i, v⟩ = true
      ↔ (txid, i) ∈ k.utxos.map outpointOf := by
  unfold _isExistingUtxo
  rw [List.any_eq_true]
  constructor
  · rintro ⟨e, he, hcond⟩
    simp only [Bool.and_eq_true, beq_iff_eq] at hcond
    refine List.mem_map.mpr ⟨e, he, ?_⟩
    unfold outpointOf
    rw [hcond.1, hcond.2]
  · intro hmem
    obtain ⟨e, he, heq⟩ := List.mem_map.mp hmem
    unfold outpointOf at heq
    refine ⟨e, he, ?_⟩
    simp only [Bool.and_eq_true, beq_iff_eq]
    exact ⟨congrArg Prod.fst heq, congrArg Prod.snd heq⟩

theorem processOutput_eq_of_noUser (st : WalletState) (txid : String) (i : Nat)
    (o : TxOutput) (h : findUserForScript st o.scriptHex = none) :
    processOutput st txid i o = st := by
  unfold processOutput
  rw [h]

theorem processOutput_eq_of_noKey (st : WalletState) (txid : String) (i : Nat)
    (o : TxOutput) (uid : String)
    (h1 : findUserForScript st o.scriptHex = some uid)
    (h2 : lookupKey st uid = none) :
    processOutput st txid i o = st := by
  unfold processOutput
  rw [h1]
  simp only [h2]

theorem processOutput_eq_of_existing (st : WalletState) (txid : String) (i : Nat)
    (o : TxOutput) (uid : String) (k : WalletKey)
    (h1 : findUserForScript st o.scriptHex = some uid)
    (h2 : lookupKey st uid = some k)
    (h3 : _isExistingUtxo k ⟨txid, i, o.value⟩ = true) :
    processOutput st txid i o = st := by
  unfold processOutput
  rw [h1]
  simp only [h2, h3, if_true]

theorem processOutput_eq_of_push (st : WalletState) (txid : String) (i : Nat)
    (o : TxOutput) (uid : String) (k : WalletKey)
    (h1 : findUserForScript st o.scriptHex = some uid)
    (h2 : lookupKey st uid = some k)
    (h3 : _isExistingUtxo k ⟨txid, i, o.value⟩ = false) :
    processOutput st txid i o = setUtxos st uid (k.utxos ++ [⟨txid, i, o.value⟩]) := by
  unfold processOutput
  rw [h1]
  simp only [h2, h3, Bool.false_eq_true, if_false]

theorem processOutput_findUser (st : WalletState) (txid : String) (i : Nat)
    (o : TxOutput) (s : String) :
    findUserForScript (processOutput st txid i o) s = findUserForScript st s := by
  cases hf : findUserForScript st o.scriptHex with
  | none => rw [processOutput_eq_of_noUser st txid i o hf]
  | some uid =>
    cases hk : lookupKey st uid with
    | none => rw [processOutput_eq_of_noKey st txid i o uid hf hk]
    | some k =>
      cases hex : _isExistingUtxo k ⟨txid, i, o.value⟩ with
      | true => rw [processOutput_eq_of_existing st txid i o uid k hf hk hex]
      | false =>
        rw [processOutput_eq_of_push st txid i o uid k hf hk hex]
        exact findUserForScript_setUtxos st uid _ s

theorem pairMem_processOutput_mono (st : WalletState) (txid : String) (i : Nat)
    (o : TxOutput) (uid : String) (p : String × Nat)
    (h : pairMem st uid p) : pairMem (processOutput st txid i o) uid p := by
  cases hf : findUserForScript st o.scriptHex with
  | none => rw [processOutput_eq_of_noUser st txid i o hf]; exact h
  | some u =>
    cases hk : lookupKey st u with
    | none => rw [processOutput_eq_of_noKey st txid i o u hf hk]; exact h
    | some k =>
      cases hex : _isExistingUtxo k ⟨txid, i, o.value⟩ with
      | true =>
        rw [processOutput_eq_of_existing st txid i o u k hf hk hex]; exact h
      | false =>
        rw [processOutput_eq_of_push st txid i o u k hf hk hex]
        obtain ⟨k1, hk1, hp⟩ := h
        by_cases huid : (uid == u) = true
        · have huid' : uid = u := eq_of_beq huid
          subst huid'
          rw [hk1] at hk
          injection hk with hk
          subst hk
          refine ⟨{ k1 with utxos := k1.utxos ++ [⟨txid, i, o.value⟩] }, ?_, ?_⟩
          · rw [lookupKey_setUtxos, hk1]
            simp [huid]
          · simp only [List.map_append]
            exact List.mem_append_left _ hp
        · refine ⟨k1, ?_, hp⟩
          rw [lookupKey_setUtxos, hk1]
          simp [huid]

theorem processOutput_records (st : WalletState) (txid : String) (i : Nat)
    (o : TxOutput) (uid : String)
    (h : findUserForScript st o.scriptHex = some uid) :
    pairMem (processOutput st txid i o) uid (txid, i) := by
  obtain ⟨k, hk, _⟩ := findUser_lookup st o.scriptHex uid h
  cases hex : _isExistingUtxo k ⟨txid, i, o.value⟩ with
  | true =>
    rw [processOutput_eq_of_existing st txid i o uid k h hk hex]
    exact ⟨k, hk, (isExisting_iff k txid i o.value).mp hex⟩
  | false =>
    rw [processOutput_eq_of_push st txid i o uid k h hk hex]
    refine ⟨{ k with utxos := k.utxos ++ [⟨txid, i, o.value⟩] }, ?_, ?_⟩
    · rw [lookupKey_setUtxos, hk]
      simp
    · simp [outpointOf]

theorem processOutput_of_recorded (st : WalletState) (txid : String) (i : Nat)
    (o : TxOutput) (uid : String)
    (hfind : findUserForScript st o.scriptHex = some uid)
    (hmem : pairMem st uid (txid, i)) :
    processOutput st txid i o = st := by
  obtain ⟨k, hk, hp⟩ := hmem
  exact processOutput_eq_of_existing st txid i o uid k hfind hk
    ((isExisting_iff k txid i o.value).mpr hp)

theorem ledgerNodup_processOutput (st : WalletState) (txid : String) (i : Nat)
    (o : TxOutput) (h : ledgerNodup st) :
    ledgerNodup (processOutput st txid i o) := by
  cases hf : findUserForScript st o.scriptHex with
  | none => rw [processOutput_eq_of_noUser st txid i o hf]; exact h
  | some uid =>
    cases hk : lookupKey st uid with
    | none => rw [processOutput_eq_of_noKey st txid i o uid hf hk]; exact h
    | some k =>
      cases hex : _isExistingUtxo k ⟨txid, i, o.value⟩ with
      | true =>
        rw [processOutput_eq_of_existing st txid i o uid k hf hk hex]; exact h
      | false =>
        rw [processOutput_eq_of_push st txid i o uid k hf hk hex]
        have hknodup : (k.utxos.map outpointOf).Nodup := by
          unfold lookupKey at hk
          cases hfind : st.keys.find? (fun p => p.1 == uid) with
          | none => rw [hfind] at hk; simp at hk
          | some q =>
            rw [hfind] at hk
            simp only [Option.some.injEq] at hk
            subst hk
            exact h q (List.mem_of_find?_eq_some hfind)
        have hnotmem : (txid, i) ∉ k.utxos.map outpointOf := by
          intro hmem
          rw [(isExisting_iff k txid i o.value).mpr hmem] at hex
          exact Bool.noConfusion hex
        intro p hp
        unfold setUtxos at hp
        obtain ⟨q, hq, rfl⟩ := List.mem_map.mp hp
        by_cases hquid : (q.1 == uid) = true
        · simp only [hquid, if_true]
          simp only [List.map_append]
          rw [List.nodup_append]
          refine ⟨hknodup, List.nodup_singleton _, ?_⟩
          intro a ha hb
          simp only [List.map_cons, List.map_nil, List.mem_singleton] at hb
          rw [hb] at ha
          exact hnotmem (by simpa [outpointOf] using ha)
        · simp only [hquid, Bool.false_eq_true, if_false]
          exact h q hq

/-! ### Fold-level lemmas for a whole `AddedToMempool` message -/

theorem findUser_msgFold (txid : String) (L : List (Nat × TxOutput)) :
    ∀ (st : WalletState) (s : String),
      findUserForScript
        (L.foldl (fun st io => processOutput st txid io.1 io.2) st) s
        = findUserForScript st s := by
  induction L with
  | nil => intro st s; rfl
  | cons io rest ih =>
    intro st s
    rw [List.foldl_cons, ih, processOutput_findUser]

theorem pairMem_msgFold_mono (txid : String) (L : List (Nat × TxOutput)) :
    ∀ (st : WalletState) (uid : String) (p : String × Nat),
      pairMem st uid p →
      pairMem (L.foldl (fun st io => processOutput st txid io.1 io.2) st) uid p := by
  induction L with
  | nil => intro st uid p h; exact h
  | cons io rest ih =>
    intro st uid p h
    rw [List.foldl_cons]
    exact ih _ uid p (pairMem_processOutput_mono st txid io.1 io.2 uid p h)

theorem msgFold_records (txid : String) (L : List (Nat × TxOutput)) :
    ∀ (st : WalletState) (i : Nat) (o : TxOutput), (i, o) ∈ L →
      ∀ uid,
        findUserForScript
          (L.foldl (fun st io => processOutput st txid io.1 io.2) st)
          o.scriptHex = some uid →
        pairMem (L.foldl (fun st io => processOutput st txid io.1 io.2) st)
          uid (txid, i) := by
  induction L with
  | nil => intro st i o h; simp at h
  | cons io rest ih =>
    intro st i o hmem uid hfind
    rw [List.foldl_cons] at hfind ⊢
    rcases List.mem_cons.mp hmem with heq | htail
    · have hio : io = (i, o) := heq.symm
      subst hio
      have hfind0 : findUserForScript st o.scriptHex = some uid := by
        rw [findUser_msgFold, processOutput_findUser] at hfind
        exact hfind
      exact pairMem_msgFold_mono txid rest _ uid (txid, i)
        (processOutput_records st txid i o uid hfind0)
    · exact ih _ i o htail uid hfind

theorem ledgerNodup_msgFold (txid : String) (L : List (Nat × TxOutput)) :
    ∀ (st : WalletState), ledgerNodup st →
      ledgerNodup (L.foldl (fun st io => processOutput st txid io.1 io.2) st) := by
  induction L with
  | nil => intro st h; exact h
  | cons io rest ih =>
    intro st h
    rw [List.foldl_cons]
    exact ih _ (ledgerNodup_processOutput st txid io.1 io.2 h)

theorem foldl_fixed {α β : Type} (f : α → β → α) (l : List β) (s : α)
    (h : ∀ x ∈ l, f s x = s) : l.foldl f s = s := by
  induction l with
  | nil => rfl
  | cons x rest ih =>
    rw [List.foldl_cons, h x (List.mem_cons_self x rest)]
    exact ih (fun y hy => h y (List.mem_cons_of_mem x hy))

theorem handleWs_added (st : WalletState) (txid : String)
    (outputs : List TxOutput) :
    _chronikHandleWsMessage st (.addedToMempool txid outputs)
      = (outputs.enum).foldl (fun s io => processOutput s txid io.1 io.2) st :=
  rfl

theorem handleWsMessage_idem (st : WalletState) (m : WsMsg) :
    _chronikHandleWsMessage (_chronikHandleWsMessage st m) m
      = _chronikHandleWsMessage st m := by
  cases m with
  | other => rfl
  | addedToMempool txid outputs =>
    rw [handleWs_added st txid outputs, handleWs_added]
    apply foldl_fixed
    intro io hio
    set st1 := (outputs.enum).foldl
      (fun s io => processOutput s txid io.1 io.2) st with hst1
    cases hfind : findUserForScript st1 io.2.scriptHex with
    | none => exact processOutput_eq_of_noUser st1 txid io.1 io.2 hfind
    | some uid =>
      have hrec : pairMem st1 uid (txid, io.1) :=
        msgFold_records txid outputs.enum st io.1 io.2
          (by rw [← Prod.mk.eta (p := io)] at hio; exact hio) uid hfind
      exact processOutput_of_recorded st1 txid io.1 io.2 uid hfind hrec

theorem ledgerNodup_handleWsMessage (st : WalletState) (m : WsMsg)
    (h : ledgerNodup st) : ledgerNodup (_chronikHandleWsMessage st m) := by
  cases m with
  | other => exact h
  | addedToMempool txid outputs =>
    exact ledgerNodup_msgFold txid outputs.enum st h

theorem ledgerNodup_processMsgs (st : WalletState) (msgs : List WsMsg)
    (h : ledgerNodup st) : ledgerNodup (processMsgs st msgs) := by
  unfold processMsgs
  induction msgs generalizing st with
  | nil => exact h
  | cons m rest ih =>
    rw [List.foldl_cons]
    exact ih _ (ledgerNodup_handleWsMessage st m h)

end LotusBot

namespace LotusBot

/-! ### Account linking: `WalletManager.updateKey` -/

/-- JS `array.findIndex(id => id == userId)` followed by
`array.splice(idx, 1)`, as performed by `WalletManager.updateKey`
(`src/lib/wallet.ts`): when the element is found, the first occurrence is
removed; when it is not found, `findIndex` yields `-1` and `splice(-1, 1)`
removes the final element of the array (and nothing on an empty array). -/
def jsSpliceFindRemove (l : List String) (userId : String) : List String :=
  match l.findIdx? (· == userId) with
  | some i => l.eraseIdx i
  | none => l.dropLast

/-- Mutation of a single entry of the `accounts` object
(`this.accounts[a] = f(this.accounts[a])`). -/
def updateEntry (accs : List (String × List String)) (a : String)
    (f : List String → List String) : List (String × List String) :=
  accs.map (fun p => if p.1 == a then (p.1, f p.2) else p)

/-- `WalletManager.updateKey` (`src/lib/wallet.ts`): remove `userId` from
`accounts[oldAccountId]` via `findIndex` + `splice`, then push it onto
`accounts[newAccountId]`.  The `keys` map is untouched. -/
def updateKey (st : WalletState) (userId oldAccountId newAccountId : String) :
    WalletState :=
  let accs1 := updateEntry st.accounts oldAccountId
    (fun l => jsSpliceFindRemove l userId)
  let accs2 := updateEntry accs1 newAccountId (fun l => l ++ [userId])
  { st with accounts := accs2 }

/-- Observation helper: account `a` lists `u` as a member. -/
def accountHasMemberB (accs : List (String × List String)) (a u : String) :
    Bool :=
  match getAccount accs a with
  | some l => l.any (· == u)
  | none => false

theorem getAccount_updateEntry (accs : List (String × List String))
    (a b : String) (f : List String → List String) :
    getAccount (updateEntry accs a f) b
      = (getAccount accs b).map (fun l => if b == a then f l else l) := by
  unfold getAccount updateEntry
  rw [assoc_find?_map (fun p => if p.1 == a then (p.1, f p.2) else p)
    (fun p => by by_cases h : (p.1 == a) = true <;> simp [h]) accs b]
  cases hfind : accs.find? (fun p => p.1 == b) with
  | none => rfl
  | some p =>
    have hb : p.1 = b := by
      have := List.find?_some hfind
      simpa using this
    by_cases h : (b == a) = true
    · have ha : p.1 = a := by rw [hb]; exact eq_of_beq h
      simp [ha, h]
    · have ha : ¬ p.1 = a := by
        rw [hb]; intro e; exact h (beq_iff_eq.mpr e)
      simp [ha, h]

theorem jsSplice_nil (u : String) : jsSpliceFindRemove [] u = [] := rfl

theorem jsSplice_cons_hit (t : List String) (a u : String)
    (h : (a == u) = true) : jsSpliceFindRemove (a :: t) u = t := by
  unfold jsSpliceFindRemove
  rw [List.findIdx?_cons, if_pos h]
  rfl

theorem jsSplice_cons_of_mem (t : List String) (a u : String)
    (h : (a == u) = false) (hu : u ∈ t) :
    jsSpliceFindRemove (a :: t) u = a :: jsSpliceFindRemove t u := by
  unfold jsSpliceFindRemove
  rw [List.findIdx?_cons, if_neg (by simp [h]), List.findIdx?_succ]
  cases hidx : t.findIdx? (· == u) with
  | some i => simp [List.eraseIdx_cons_succ]
  | none =>
    exfalso
    have := List.findIdx?_eq_none_iff.mp hidx u hu
    simp at this

theorem jsSplice_of_not_mem (l : List String) (u : String) (h : u ∉ l) :
    jsSpliceFindRemove l u = l.dropLast := by
  unfold jsSpliceFindRemove
  have hidx : l.findIdx? (· == u) = none := by
    rw [List.findIdx?_eq_none_iff]
    intro x hx
    by_cases hxu : (x == u) = true
    · exact absurd (eq_of_beq hxu ▸ hx) h
    · simpa using hxu
  rw [hidx]

theorem not_mem_jsSplice (l : List String) (u : String) (h : l.count u ≤ 1) :
    u ∉ jsSpliceFindRemove l u := by
  induction l with
  | nil => rw [jsSplice_nil]; exact List.not_mem_nil u
  | cons a t ih =>
    by_cases ha : (a == u) = true
    · rw [jsSplice_cons_hit t a u ha]
      have hau : a = u := eq_of_beq ha
      subst hau
      have hc : t.count a = 0 := by
        have := h
        rw [List.count_cons_self] at this
        omega
      exact List.count_eq_zero.mp hc
    · have ha' : (a == u) = false := by simpa using ha
      by_cases hu : u ∈ t
      · rw [jsSplice_cons_of_mem t a u ha' hu]
        intro hmem
        rcases List.mem_cons.mp hmem with heq | htail
        · exact ha (beq_iff_eq.mpr heq.symm)
        · have hct : t.count u ≤ 1 := by
            have hne : u ≠ a := fun e => ha (beq_iff_eq.mpr e.symm)
            have h2 := h
            rw [List.count_cons_of_ne hne] at h2
            exact h2
          exact ih hct htail
      · have hnotmem : u ∉ a :: t := by
          intro hmem
          rcases List.mem_cons.mp hmem with heq | htail
          · exact ha (beq_iff_eq.mpr heq.symm)
          · exact hu htail
        rw [jsSplice_of_not_mem _ u hnotmem]
        intro hmem
        exact hnotmem (List.dropLast_subset _ hmem)

theorem mem_jsSplice_iff (l : List String) (u v : String)
    (hu : u ∈ l) (hv : v ≠ u) :
    v ∈ jsSpliceFindRemove l u ↔ v ∈ l := by
  induction l with
  | nil => exact absurd hu (List.not_mem_nil u)
  | cons a t ih =>
    by_cases ha : (a == u) = true
    · rw [jsSplice_cons_hit t a u ha]
      have hau : a = u := eq_of_beq ha
      constructor
      · intro hmem; exact List.mem_cons_of_mem a hmem
      · intro hmem
        rcases List.mem_cons.mp hmem with heq | htail
        · exact absurd (heq.trans hau) hv
        · exact htail
    · have ha' : (a == u) = false := by simpa using ha
      have hu' : u ∈ t := by
        rcases List.mem_cons.mp hu with heq | htail
        · exact absurd (beq_iff_eq.mpr heq.symm) ha
        · exact htail
      rw [jsSplice_cons_of_mem t a u ha' hu']
      constructor
      · intro hmem
        rcases List.mem_cons.mp hmem with heq | htail
        · exact heq ▸ List.mem_cons_self a t
        · exact List.mem_cons_of_mem a ((ih hu').mp htail)
      · intro hmem
        rcases List.mem_cons.mp hmem with heq | htail
        · exact heq ▸ List.mem_cons_self a _
        · exact List.mem_cons_of_mem a ((ih hu').mpr htail)

end LotusBot

namespace LotusBot

/-! ### The durable store (`src/lib/database.ts`)

Records keep the fields the wallet logic reads; `timestamp` fields
(wall-clock input) and platform user rows are omitted. -/

/-- A `Give` record (`src/lib/database.ts`). -/
structure GiveRecord where
  txid : String
  platform : String
  fromId : String
  toId : String
  value : Int
deriving Repr, DecidableEq

/-- A `Withdrawal` record (`src/lib/database.ts`). -/
structure WithdrawalRecord where
  txid : String
  value : Int
  userId : String
deriving Repr, DecidableEq

/-- A `Deposit` record (`src/lib/database.ts`): an `AccountUtxo` persisted. -/
structure DepositRecord where
  txid : String
  outIdx : Nat
  value : Int
  userId : String
deriving Repr, DecidableEq

/-- The tables of the durable store that the wallet engine touches. -/
structure StoreState where
  gives : List GiveRecord
  withdrawals : List WithdrawalRecord
  deposits : List DepositRecord
deriving Repr, DecidableEq

/-- `Database.isGiveTx`: `prisma.give.findFirst({ where: { txid } })`. -/
def isGiveTx (db : StoreState) (txid : String) : Bool :=
  db.gives.any (fun g => g.txid == txid)

/-- `Database.isWithdrawTx`. -/
def isWithdrawTx (db : StoreState) (txid : String) : Bool :=
  db.withdrawals.any (fun w => w.txid == txid)

/-- `Database.saveGive`: `prisma.give.create`. -/
def saveGive (db : StoreState) (g : GiveRecord) : StoreState :=
  { db with gives := db.gives ++ [g] }

/-- `Database.saveWithdrawal`: `prisma.withdrawal.create`. -/
def saveWithdrawal (db : StoreState) (w : WithdrawalRecord) : StoreState :=
  { db with withdrawals := db.withdrawals ++ [w] }

/-- `Database.deleteGive`: `prisma.give.delete({ where: { txid } })`. -/
def deleteGive (db : StoreState) (txid : String) : StoreState :=
  { db with gives := db.gives.filter (fun g => !(g.txid == txid)) }

/-- `Database.deleteWithdrawal`. -/
def deleteWithdrawal (db : StoreState) (txid : String) : StoreState :=
  { db with withdrawals := db.withdrawals.filter (fun w => !(w.txid == txid)) }

/-- `Database.saveDeposit`: `prisma.deposit.create`. -/
def saveDeposit (db : StoreState) (d : DepositRecord) : StoreState :=
  { db with deposits := db.deposits ++ [d] }

/-- Modelled from the spec: `Database.getDeposits`, called by
`Handler.init`, is defined in a database revision not present under
`src/`; per the spec it returns the persisted deposit records. -/
def getDeposits (db : StoreState) : List DepositRecord := db.deposits

/-- `Handler._saveDeposit` (`src/lib/handler.ts` lines 353-390): skip the
UTXO when its txid is a recorded Give, or a recorded Withdrawal whose
output index is the change output index; otherwise persist a Deposit.
`WalletManager.WITHDRAW_CHANGE_OUTIDX`, referenced by the handler, is a
static whose defining `wallet.ts` revision is not part of `src/`; it is
modelled from the spec as the parameter `withdrawChangeOutIdx`, "the
withdrawal's change output index". -/
def handlerSaveDeposit (db : StoreState) (withdrawChangeOutIdx : Nat)
    (utxo : AccountUtxo) : StoreState :=
  if isGiveTx db utxo.txid
      || (isWithdrawTx db utxo.txid && utxo.outIdx == withdrawChangeOutIdx) then
    db
  else
    saveDeposit db ⟨utxo.txid, utxo.outIdx, utxo.value, utxo.userId⟩

/-- Does the store hold a Deposit record with this txid?
(the `deposits.findIndex(d => u.txid == d.txid) < 0` test of
`Handler.init`, negated). -/
def hasDepositForTxid (db : StoreState) (t : String) : Bool :=
  db.deposits.any (fun d => t == d.txid)

/-- `Handler.init` (`src/lib/handler.ts` lines 45-60): startup deposit
reconciliation.  Every ledger UTXO whose txid has no Deposit record is
backfilled through `Handler._saveDeposit`, the same path live
`AddedToMempool` events take. -/
def handlerInit (utxos : List AccountUtxo) (db : StoreState)
    (withdrawChangeOutIdx : Nat) : StoreState :=
  let deposits := getDeposits db
  let newDeposits := utxos.filter
    (fun u => !(deposits.any (fun d => u.txid == d.txid)))
  newDeposits.foldl (fun s u => handlerSaveDeposit s withdrawChangeOutIdx u) db

end LotusBot

namespace LotusBot

/-! ### Lemmas about the startup reconciliation fold -/

theorem handlerSaveDeposit_gives (db : StoreState) (idx : Nat)
    (u : AccountUtxo) : (handlerSaveDeposit db idx u).gives = db.gives := by
  unfold handlerSaveDeposit saveDeposit
  split <;> rfl

theorem handlerSaveDeposit_withdrawals (db : StoreState) (idx : Nat)
    (u : AccountUtxo) :
    (handlerSaveDeposit db idx u).withdrawals = db.withdrawals := by
  unfold handlerSaveDeposit saveDeposit
  split <;> rfl

theorem foldSave_gives (L : List AccountUtxo) (idx : Nat) :
    ∀ s : StoreState,
      (L.foldl (fun a u => handlerSaveDeposit a idx u) s).gives = s.gives := by
  induction L with
  | nil => intro s; rfl
  | cons u rest ih =>
    intro s
    rw [List.foldl_cons, ih, handlerSaveDeposit_gives]

theorem foldSave_withdrawals (L : List AccountUtxo) (idx : Nat) :
    ∀ s : StoreState,
      (L.foldl (fun a u => handlerSaveDeposit a idx u) s).withdrawals
        = s.withdrawals := by
  induction L with
  | nil => intro s; rfl
  | cons u rest ih =>
    intro s
    rw [List.foldl_cons, ih, handlerSaveDeposit_withdrawals]

theorem isGiveTx_handlerSaveDeposit (s : StoreState) (idx : Nat)
    (u : AccountUtxo) (t : String) :
    isGiveTx (handlerSaveDeposit s idx u) t = isGiveTx s t := by
  unfold isGiveTx
  rw [handlerSaveDeposit_gives]

theorem isWithdrawTx_handlerSaveDeposit (s : StoreState) (idx : Nat)
    (u : AccountUtxo) (t : String) :
    isWithdrawTx (handlerSaveDeposit s idx u) t = isWithdrawTx s t := by
  unfold isWithdrawTx
  rw [handlerSaveDeposit_withdrawals]

theorem hasDeposit_save_mono (s : StoreState) (idx : Nat) (u : AccountUtxo)
    (t : String) (h : hasDepositForTxid s t = true) :
    hasDepositForTxid (handlerSaveDeposit s idx u) t = true := by
  unfold handlerSaveDeposit saveDeposit
  split
  · exact h
  · unfold hasDepositForTxid at h ⊢
    simp only [List.any_append, h, Bool.true_or]

theorem hasDeposit_foldSave_mono (L : List AccountUtxo) (idx : Nat) :
    ∀ (s : StoreState) (t : String), hasDepositForTxid s t = true →
      hasDepositForTxid (L.foldl (fun a u => handlerSaveDeposit a idx u) s) t
        = true := by
  induction L with
  | nil => intro s t h; exact h
  | cons u rest ih =>
    intro s t h
    rw [List.foldl_cons]
    exact ih _ t (hasDeposit_save_mono s idx u t h)

theorem foldSave_records (L : List AccountUtxo) (idx : Nat) :
    ∀ (s : StoreState) (u : AccountUtxo), u ∈ L →
      isGiveTx s u.txid = false →
      (isWithdrawTx s u.txid = false ∨ u.outIdx ≠ idx) →
      hasDepositForTxid (L.foldl (fun a u => handlerSaveDeposit a idx u) s)
        u.txid = true := by
  induction L with
  | nil => intro s u h; exact absurd h (List.not_mem_nil u)
  | cons u0 rest ih =>
    intro s u hmem hgive hwd
    rw [List.foldl_cons]
    rcases List.mem_cons.mp hmem with heq | htail
    · subst heq
      apply hasDeposit_foldSave_mono
      unfold handlerSaveDeposit
      have hcond : (isGiveTx s u.txid
          || (isWithdrawTx s u.txid && u.outIdx == idx)) = false := by
        rw [hgive, Bool.false_or]
        rcases hwd with hw | hi
        · rw [hw, Bool.false_and]
        · rw [Bool.and_eq_false_iff]
          right
          simpa using hi
      rw [hcond]
      simp only [Bool.false_eq_true, if_false]
      unfold hasDepositForTxid saveDeposit
      simp
    · apply ih _ u htail
      · rw [isGiveTx_handlerSaveDeposit]
        exact hgive
      · rcases hwd with hw | hi
        · left
          rw [isWithdrawTx_handlerSaveDeposit]
          exact hw
        · right; exact hi

theorem foldSave_deposits_append (L : List AccountUtxo) (idx : Nat) :
    ∀ s : StoreState, ∃ extra,
      (L.foldl (fun a u => handlerSaveDeposit a idx u) s).deposits
          = s.deposits ++ extra
        ∧ ∀ d ∈ extra, ∃ u ∈ L, d.txid = u.txid := by
  induction L with
  | nil =>
    intro s
    exact ⟨[], by simp, by intro d hd; exact absurd hd (List.not_mem_nil d)⟩
  | cons u0 rest ih =>
    intro s
    rw [List.foldl_cons]
    by_cases hc : (isGiveTx s u0.txid
        || (isWithdrawTx s u0.txid && u0.outIdx == idx)) = true
    · have hstep : handlerSaveDeposit s idx u0 = s := by
        unfold handlerSaveDeposit
        rw [hc]
        simp
      rw [hstep]
      obtain ⟨extra, he, hd⟩ := ih s
      exact ⟨extra, he, fun d hdm => by
        obtain ⟨u, hu, ht⟩ := hd d hdm
        exact ⟨u, List.mem_cons_of_mem u0 hu, ht⟩⟩
    · have hstep : handlerSaveDeposit s idx u0
          = saveDeposit s ⟨u0.txid, u0.outIdx, u0.value, u0.userId⟩ := by
        unfold handlerSaveDeposit
        simp only [hc, Bool.false_eq_true, if_false]
      rw [hstep]
      obtain ⟨extra, he, hd⟩ := ih
        (saveDeposit s ⟨u0.txid, u0.outIdx, u0.value, u0.userId⟩)
      refine ⟨⟨u0.txid, u0.outIdx, u0.value, u0.userId⟩ :: extra, ?_, ?_⟩
      · rw [he]
        unfold saveDeposit
        simp
      · intro d hdm
        rcases List.mem_cons.mp hdm with heq | htail
        · exact ⟨u0, List.mem_cons_self u0 rest, by rw [heq]⟩
        · obtain ⟨u, hu, ht⟩ := hd d htail
          exact ⟨u, List.mem_cons_of_mem u0 hu, ht⟩

end LotusBot


namespace LotusBot

/-! ### The transaction builder: `WalletManager._genTx` -/

/-- The transaction built by `_genTx`: inputs in the order they were
added, the destination output value (`outputs[0]`), and the change output
attached by the external library, if any. -/
structure BuiltTx where
  inputs : List ParsedUtxo
  outSats : Int
  change : Option Int
deriving Repr, DecidableEq

/-- Result of `WalletManager._genTx`: a built transaction; a thrown error
(the `throw new Error(verified)` path when bitcore signature verification
fails — verification of a correctly built transaction is modelled as
succeeding, so the embedding never produces this constructor, but it keeps
the JS function's error alternative representable); or `undefined` — the
JS function has no return statement after its user loop, so exhausting
every candidate user without covering `outSats` falls through and returns
`undefined`. -/
inductive GenTxResult where
  | tx (t : BuiltTx)
  | error (msg : String)
  | undefined
deriving Repr, DecidableEq

/-- Discriminator: did `_genTx` produce a thrown error? -/
def GenTxResult.isError : GenTxResult → Bool
  | .error _ => true
  | _ => false

/-- Modelled from the spec: the change-output mechanism of the external
bitcore `Transaction` (`local_modules/bitcore-lib-xpi`, not under
`src/`): "attach a change output, sent to the address of the last (or
primary) contributing key, and let the standard fee mechanism size it" —
the change output absorbs the input surplus beyond the destination output
and the fee, and is attached only when above the dust limit. -/
def changeOutput (inputAmount destSats txFee dustLimit : Int) : Option Int :=
  let c := inputAmount - destSats - txFee
  if dustLimit < c then some c else none

/-- The inner UTXO loop of `_genTx`: `tx.addInput(...)` for each UTXO of
the current key, breaking as soon as `tx.inputAmount > outSats`. -/
def addInputs (utxos : List ParsedUtxo) (inputs : List ParsedUtxo)
    (inputAmount outSats : Int) : List ParsedUtxo × Int :=
  match utxos with
  | [] => (inputs, inputAmount)
  | u :: rest =>
    let inputs2 := inputs ++ [u]
    let amt2 := inputAmount + u.value
    if amt2 > outSats then (inputs2, amt2)
    else addInputs rest inputs2 amt2 outSats

/-- Construction of the covered transaction in `_genTx`: set the fee
(`txFee = tx._estimateSize() * config.tx.feeRate`, the external library's
byte-size estimate passed in as `estSize`), subtract the fee from the
destination output when `outSats + txFee > tx.inputAmount`, and attach
the library's change output; `tx.verify()` succeeds on the signed
transaction. -/
def genTxBuild (outSats feeRate estSize dustLimit : Int)
    (r : List ParsedUtxo × Int) : GenTxResult :=
  let txFee := estSize * feeRate
  let dest := if outSats + txFee > r.2 then outSats - txFee else outSats
  .tx ⟨r.1, dest, changeOutput r.2 dest txFee dustLimit⟩

/-- `WalletManager._genTx` (`src/lib/wallet.ts` lines 207-252): iterate the
candidate users, adding their UTXOs as inputs until the accumulated input
amount exceeds `outSats`; `continue` to the next user while
`tx.inputAmount < outSats`; once covered, build, sign and verify the
transaction.  A `userId` missing from `keys` would make the JS crash on
property access; the embedding lets it contribute no UTXOs, and every
state used in the theorems has a key for each member. -/
def _genTx (st : WalletState) (userIds : List String) (outSats : Int)
    (feeRate estSize dustLimit : Int) : GenTxResult :=
  go userIds [] 0
where
  go : List String → List ParsedUtxo → Int → GenTxResult
  | [], _, _ => .undefined
  | userId :: rest, inputs, inputAmount =>
    let k := (lookupKey st userId).getD ⟨"", []⟩
    let r := addInputs k.utxos inputs inputAmount outSats
    if r.2 < outSats then go rest r.1 r.2
    else genTxBuild outSats feeRate estSize dustLimit r

/-- Sum of the values of a list of UTXOs (observation helper). -/
def utxosValue : List ParsedUtxo → Int
  | [] => 0
  | u :: rest => u.value + utxosValue rest

/-- Total UTXO value the builder can draw on across the candidate users. -/
def totalValue (st : WalletState) : List String → Int
  | [] => 0
  | uid :: rest =>
    utxosValue ((lookupKey st uid).getD ⟨"", []⟩).utxos + totalValue st rest

theorem genTx_go_cons (st : WalletState) (outSats feeRate estSize dustLimit : Int)
    (userId : String) (rest : List String) (inputs : List ParsedUtxo)
    (inputAmount : Int) :
    _genTx.go st outSats feeRate estSize dustLimit (userId :: rest) inputs inputAmount
      = (if (addInputs ((lookupKey st userId).getD ⟨"", []⟩).utxos inputs
              inputAmount outSats).2 < outSats
         then _genTx.go st outSats feeRate estSize dustLimit rest
            (addInputs ((lookupKey st userId).getD ⟨"", []⟩).utxos inputs
              inputAmount outSats).1
            (addInputs ((lookupKey st userId).getD ⟨"", []⟩).utxos inputs
              inputAmount outSats).2
         else genTxBuild outSats feeRate estSize dustLimit
            (addInputs ((lookupKey st userId).getD ⟨"", []⟩).utxos inputs
              inputAmount outSats)) := rfl

theorem utxosValue_append (l1 l2 : List ParsedUtxo) :
    utxosValue (l1 ++ l2) = utxosValue l1 + utxosValue l2 := by
  induction l1 with
  | nil => simp [utxosValue]
  | cons u rest ih =>
    show u.value + utxosValue (rest ++ l2) = u.value + utxosValue rest + utxosValue l2
    rw [ih]
    ring

theorem utxosValue_nonneg (l : List ParsedUtxo)
    (h : ∀ u ∈ l, 0 ≤ u.value) : 0 ≤ utxosValue l := by
  induction l with
  | nil => simp [utxosValue]
  | cons u rest ih =>
    have h1 := h u (List.mem_cons_self u rest)
    have h2 := ih (fun v hv => h v (List.mem_cons_of_mem u hv))
    unfold utxosValue
    omega

theorem totalValue_nonneg (st : WalletState) (uids : List String)
    (h : ∀ uid ∈ uids,
      ∀ u ∈ ((lookupKey st uid).getD ⟨"", []⟩).utxos, 0 ≤ u.value) :
    0 ≤ totalValue st uids := by
  induction uids with
  | nil => simp [totalValue]
  | cons uid rest ih =>
    have h1 := utxosValue_nonneg _ (h uid (List.mem_cons_self uid rest))
    have h2 := ih (fun v hv => h v (List.mem_cons_of_mem uid hv))
    unfold totalValue
    omega

theorem addInputs_of_no_cover (utxos : List ParsedUtxo) :
    ∀ (inputs : List ParsedUtxo) (amt outSats : Int),
      (∀ u ∈ utxos, 0 ≤ u.value) →
      amt + utxosValue utxos ≤ outSats →
      addInputs utxos inputs amt outSats
        = (inputs ++ utxos, amt + utxosValue utxos) := by
  induction utxos with
  | nil =>
    intro inputs amt outSats _ _
    simp [addInputs, utxosValue]
  | cons u rest ih =>
    intro inputs amt outSats hnn hle
    unfold addInputs
    have hrest : 0 ≤ utxosValue rest :=
      utxosValue_nonneg rest (fun v hv => hnn v (List.mem_cons_of_mem u hv))
    have hval : utxosValue (u :: rest) = u.value + utxosValue rest := rfl
    have hno : ¬ (amt + u.value > outSats) := by
      rw [hval] at hle
      omega
    simp only [hno, if_false]
    rw [ih (inputs ++ [u]) (amt + u.value) outSats
      (fun v hv => hnn v (List.mem_cons_of_mem u hv)) (by rw [hval] at hle; omega)]
    simp only [Prod.mk.injEq]
    exact ⟨by simp, by rw [hval]; ring⟩

theorem addInputs_value_invariant (utxos : List ParsedUtxo) :
    ∀ (inputs : List ParsedUtxo) (amt outSats : Int),
      amt = utxosValue inputs →
      (addInputs utxos inputs amt outSats).2
        = utxosValue (addInputs utxos inputs amt outSats).1 := by
  induction utxos with
  | nil => intro inputs amt outSats h; simpa [addInputs] using h
  | cons u rest ih =>
    intro inputs amt outSats h
    unfold addInputs
    have hval : utxosValue (inputs ++ [u]) = utxosValue inputs + u.value := by
      rw [utxosValue_append]
      simp [utxosValue]
    by_cases hc : amt + u.value > outSats
    · simp only [hc, if_true]
      rw [hval, h]
    · simp only [hc, if_false]
      exact ih (inputs ++ [u]) (amt + u.value) outSats (by rw [hval, h])

theorem genTx_go_undefined (st : WalletState)
    (outSats feeRate estSize dustLimit : Int) (uids : List String) :
    ∀ (inputs : List ParsedUtxo) (amt : Int),
      (∀ uid ∈ uids,
        ∀ u ∈ ((lookupKey st uid).getD ⟨"", []⟩).utxos, 0 ≤ u.value) →
      amt + totalValue st uids < outSats →
      _genTx.go st outSats feeRate estSize dustLimit uids inputs amt
        = .undefined := by
  induction uids with
  | nil => intro inputs amt _ _; rfl
  | cons uid rest ih =>
    intro inputs amt hnn hlt
    have hnnuid := hnn uid (List.mem_cons_self uid rest)
    have hnnrest : ∀ v ∈ rest,
        ∀ u ∈ ((lookupKey st v).getD ⟨"", []⟩).utxos, 0 ≤ u.value :=
      fun v hv => hnn v (List.mem_cons_of_mem uid hv)
    have hrest0 : 0 ≤ totalValue st rest := totalValue_nonneg st rest hnnrest
    have htot : totalValue st (uid :: rest)
        = utxosValue ((lookupKey st uid).getD ⟨"", []⟩).utxos
            + totalValue st rest := rfl
    have hsum : amt + utxosValue ((lookupKey st uid).getD ⟨"", []⟩).utxos
        ≤ outSats := by
      rw [htot] at hlt
      omega
    rw [genTx_go_cons,
      addInputs_of_no_cover _ inputs amt outSats hnnuid hsum]
    have hlt2 : amt + utxosValue ((lookupKey st uid).getD ⟨"", []⟩).utxos
        < outSats := by
      rw [htot] at hlt
      omega
    simp only [hlt2, if_true]
    apply ih
    · exact hnnrest
    · rw [htot] at hlt
      omega

theorem genTx_go_built (st : WalletState)
    (outSats feeRate estSize dustLimit : Int) (uids : List String) :
    ∀ (inputs : List ParsedUtxo) (amt : Int) (t : BuiltTx),
      amt = utxosValue inputs →
      _genTx.go st outSats feeRate estSize dustLimit uids inputs amt = .tx t →
      (t.outSats = if outSats + estSize * feeRate > utxosValue t.inputs
          then outSats - estSize * feeRate else outSats) ∧
      t.change = changeOutput (utxosValue t.inputs) t.outSats
        (estSize * feeRate) dustLimit := by
  induction uids with
  | nil =>
    intro inputs amt t _ h
    exact absurd h (by simp [_genTx.go])
  | cons uid rest ih =>
    intro inputs amt t hinv h
    rw [genTx_go_cons] at h
    by_cases hc : (addInputs ((lookupKey st uid).getD ⟨"", []⟩).utxos inputs
        amt outSats).2 < outSats
    · rw [if_pos hc] at h
      exact ih _ _ t
        (addInputs_value_invariant _ inputs amt outSats hinv) h
    · rw [if_neg hc] at h
      unfold genTxBuild at h
      simp only [GenTxResult.tx.injEq] at h
      have hamt := addInputs_value_invariant
        ((lookupKey st uid).getD ⟨"", []⟩).utxos inputs amt outSats hinv
      rw [← h]
      simp only []
      rw [← hamt]
      exact ⟨rfl, rfl⟩

/-- The fee/change dichotomy of `_genTx`, stated on the whole builder. -/
theorem genTx_built (st : WalletState)
    (outSats feeRate estSize dustLimit : Int) (uids : List String)
    (t : BuiltTx)
    (h : _genTx st uids outSats feeRate estSize dustLimit = .tx t) :
    (t.outSats = if outSats + estSize * feeRate > utxosValue t.inputs
        then outSats - estSize * feeRate else outSats) ∧
    t.change = changeOutput (utxosValue t.inputs) t.outSats
      (estSize * feeRate) dustLimit :=
  genTx_go_built st outSats feeRate estSize dustLimit uids [] 0 t rfl h

end LotusBot

namespace LotusBot

/-! ### Command orchestration: `Handler` (`src/lib/handler.ts`) -/

/-- `TRANSACTION.MIN_OUTPUT_AMOUNT` (`src/util/constants.ts`, the
revision carrying the transaction parameters): minimum output amount for
any Give/Withdraw, 1000 satoshis. -/
def MIN_OUTPUT_AMOUNT : Int := 1000

/-- A JS number as the command validation sees it: an integer value, or
`NaN` (what `Util.toSats` yields on a non-numeric amount string).  Any JS
`<`/`>` comparison involving `NaN` is false. -/
inductive JsNum where
  | nan
  | int (n : Int)
deriving Repr, DecidableEq

/-- JS `<` on possibly-NaN numbers. -/
def JsNum.ltB : JsNum → JsNum → Bool
  | .int a, .int b => a < b
  | _, _ => false

/-- Outcome of the validation prefix of `Handler.processWithdrawCommand`. -/
inductive WithdrawValidation where
  | invalidAddress
  | belowMinimum
  | proceed
deriving Repr, DecidableEq

/-- The validation prefix of `Handler.processWithdrawCommand`
(`src/lib/handler.ts` lines 180-185): reject an invalid address, then
reject `sats < MIN_OUTPUT_AMOUNT`; this revision has no `isNaN` check
(unlike the superseded `lotusbot.ts` revision), and since a JS comparison
with `NaN` is false, a `NaN` amount reaches `proceed` — account
resolution, balance check and transaction generation. -/
def withdrawValidate (addressValid : Bool) (sats : JsNum) :
    WithdrawValidation :=
  if !addressValid then .invalidAddress
  else if sats.ltB (.int MIN_OUTPUT_AMOUNT) then .belowMinimum
  else .proceed

/-- The validation prefix of `Handler.processGiveCommand`
(`src/lib/handler.ts` line 115): `sats < MIN_OUTPUT_AMOUNT` throws;
returns `true` when the give is rejected.  `NaN` passes (`false`). -/
def giveValidateRejects (sats : JsNum) : Bool :=
  sats.ltB (.int MIN_OUTPUT_AMOUNT)

/-- `WalletManager._reconcileUtxos` (`src/lib/wallet.ts`): query
`chronik.validateUtxos` for every tracked outpoint of the user and keep a
UTXO unless its state is `NO_SUCH_TX`, `NO_SUCH_OUTPUT` or `SPENT`.
`keep` abstracts the node's per-outpoint answer (`true` = kept). -/
def _reconcileUtxos (keep : ParsedUtxo → Bool) (st : WalletState)
    (userId : String) : WalletState :=
  match lookupKey st userId with
  | none => st
  | some k => setUtxos st userId (k.utxos.filter keep)

/-- `WalletManager.getAccountBalance` (`src/lib/wallet.ts`): for each
member of the account, reconcile the member's UTXOs against the node and
add up the values of those that remain.  Returns the balance and the
reconciled wallet state. -/
def getAccountBalance (keep : ParsedUtxo → Bool) (st : WalletState)
    (accountId : String) : Int × WalletState :=
  let userIds := (getAccount st.accounts accountId).getD []
  userIds.foldl
    (fun acc uid =>
      let st2 := _reconcileUtxos keep acc.2 uid
      (acc.1 + utxosValue ((lookupKey st2 uid).getD ⟨"", []⟩).utxos, st2))
    (0, st)

/-- Combined in-memory wallet + durable store state. -/
structure SysState where
  wallet : WalletState
  db : StoreState
deriving Repr, DecidableEq

/-- The environment a transfer command runs against: the node's view
during balance reconciliation (`keep`), the broadcast outcome, the txid
the built transaction hashes to, and the configured fee rate, external
size estimate and dust limit. -/
structure TransferEnv where
  keep : ParsedUtxo → Bool
  broadcastOk : Bool
  txid : String
  feeRate : Int
  estSize : Int
  dustLimit : Int

/-- Outcome of `Handler.processGiveCommand`. -/
inductive GiveOutcome where
  | belowMinimum
  | insufficientBalance
  | txUndefined
  | genTxError (msg : String)
  | broadcastFailed (txid : String)
  | success (txid : String) (t : BuiltTx)
deriving Repr, DecidableEq

/-- Result of a give command: its outcome, the final combined state, and
whether `broadcastTx` was reached. -/
structure GiveResult where
  outcome : GiveOutcome
  state : SysState
  broadcastAttempted : Bool
deriving Repr, DecidableEq

/-- `Handler.processGiveCommand` (`src/lib/handler.ts` lines 102-166), for
integer `sats`: minimum-amount check; account balance check (reconciling
the ledger against the node); `genTx` (an `undefined` transaction makes
the subsequent `tx.txid` access throw); `saveGive` *before* broadcasting;
`broadcastTx`, deleting the Give record if broadcast fails.  Account
resolution (`_getIds`) is represented by the resolved `fromAccountId`,
`fromUserId` and `toUserId`. -/
def processGiveCommand (env : TransferEnv) (s : SysState)
    (fromAccountId fromUserId toUserId platform : String) (sats : Int) :
    GiveResult :=
  if sats < MIN_OUTPUT_AMOUNT then
    ⟨.belowMinimum, s, false⟩
  else
    let br := getAccountBalance env.keep s.wallet fromAccountId
    if sats > br.1 then
      ⟨.insufficientBalance, ⟨br.2, s.db⟩, false⟩
    else
      let userIds := (getAccount br.2.accounts fromAccountId).getD []
      match _genTx br.2 userIds sats env.feeRate env.estSize env.dustLimit with
      | .undefined => ⟨.txUndefined, ⟨br.2, s.db⟩, false⟩
      | .error m => ⟨.genTxError m, ⟨br.2, s.db⟩, false⟩
      | .tx t =>
        let db1 := saveGive s.db ⟨env.txid, platform, fromUserId, toUserId, sats⟩
        if env.broadcastOk then
          ⟨.success env.txid t, ⟨br.2, db1⟩, true⟩
        else
          ⟨.broadcastFailed env.txid, ⟨br.2, deleteGive db1 env.txid⟩, true⟩

/-- Outcome of `Handler.processWithdrawCommand`. -/
inductive WithdrawOutcome where
  | invalidAddress
  | belowMinimum
  | withdrawToSelf
  | insufficientBalance
  | txUndefined
  | genTxError (msg : String)
  | broadcastFailed (txid : String)
  | success (txid : String) (t : BuiltTx)
deriving Repr, DecidableEq

/-- Result of a withdraw command. -/
structure WithdrawResult where
  outcome : WithdrawOutcome
  state : SysState
  broadcastAttempted : Bool
deriving Repr, DecidableEq

/-- `Handler.processWithdrawCommand` (`src/lib/handler.ts` lines 168-237),
for integer `sats`: address validation; minimum-amount check;
self-withdrawal check (`addresses.includes(outAddress)` represented by
`isOwnAddress`); balance check (reconciling); `genTx`; `saveWithdrawal`
*before* broadcasting; `broadcastTx`, deleting the Withdrawal record if
broadcast fails. -/
def processWithdrawCommand (env : TransferEnv) (s : SysState)
    (addressValid isOwnAddress : Bool) (accountId userId : String)
    (sats : Int) : WithdrawResult :=
  if !addressValid then
    ⟨.invalidAddress, s, false⟩
  else if sats < MIN_OUTPUT_AMOUNT then
    ⟨.belowMinimum, s, false⟩
  else if isOwnAddress then
    ⟨.withdrawToSelf, s, false⟩
  else
    let br := getAccountBalance env.keep s.wallet accountId
    if sats > br.1 then
      ⟨.insufficientBalance, ⟨br.2, s.db⟩, false⟩
    else
      let userIds := (getAccount br.2.accounts accountId).getD []
      match _genTx br.2 userIds sats env.feeRate env.estSize env.dustLimit with
      | .undefined => ⟨.txUndefined, ⟨br.2, s.db⟩, false⟩
      | .error m => ⟨.genTxError m, ⟨br.2, s.db⟩, false⟩
      | .tx t =>
        let db1 := saveWithdrawal s.db ⟨env.txid, sats, userId⟩
        if env.broadcastOk then
          ⟨.success env.txid t, ⟨br.2, db1⟩, true⟩
        else
          ⟨.broadcastFailed env.txid, ⟨br.2, deleteWithdrawal db1 env.txid⟩, true⟩

end LotusBot

namespace LotusBot

/-! ### Concrete fixtures used by witnesses and counterexamples -/

/-- A wallet tracking one user with an empty UTXO set. -/
def exSt1 : WalletState := ⟨[("a1", ["u1"])], [("u1", ⟨"s1", []⟩)]⟩

/-- A mempool message paying 1000000 sats to the tracked script. -/
def exMsg1 : WsMsg := .addedToMempool "abc" [⟨"s1", 1000000⟩]

/-- One user holding a single 100-sat UTXO. -/
def stC3 : WalletState := ⟨[("a1", ["u1"])], [("u1", ⟨"s1", [⟨"d1", 0, 100⟩]⟩)]⟩

/-- One user holding two UTXOs totalling 500 sats. -/
def stC3w : WalletState :=
  ⟨[("a1", ["u1"])], [("u1", ⟨"s1", [⟨"d1", 0, 200⟩, ⟨"d2", 1, 300⟩]⟩)]⟩

/-- One user holding a single 50,000,000-sat UTXO (spec scenario 1). -/
def stC4scenario : WalletState :=
  ⟨[("a1", ["u1"])], [("u1", ⟨"s1", [⟨"w1", 0, 50000000⟩]⟩)]⟩

/-- One user holding a single 10,000,100-sat UTXO: a surplus smaller than
the fee. -/
def stC4small : WalletState :=
  ⟨[("a1", ["u1"])], [("u1", ⟨"s1", [⟨"w2", 0, 10000100⟩]⟩)]⟩

/-- Two users in two accounts; the giver holds one 1,000,000-sat UTXO. -/
def sysC5 : SysState :=
  ⟨⟨[("a1", ["u1"]), ("a2", ["u2"])],
    [("u1", ⟨"s1", [⟨"d1", 0, 1000000⟩]⟩), ("u2", ⟨"s2", []⟩)]⟩,
   ⟨[], [], []⟩⟩

/-- Environment with an all-valid node view and a succeeding broadcast. -/
def envOk : TransferEnv := ⟨fun _ => true, true, "t1", 2, 226, 546⟩

/-- Environment whose broadcast fails. -/
def envFail : TransferEnv := ⟨fun _ => true, false, "t1", 2, 226, 546⟩

/-- Store fixture: one Give (txid `tg`) and one Withdrawal (txid `tw`). -/
def dbC6 : StoreState :=
  ⟨[⟨"tg", "telegram", "f", "t", 5000⟩], [⟨"tw", 5000, "uw"⟩], []⟩

end LotusBot

namespace LotusBot

/-! ### C1 — mempool deduplication -/

/-- **C1**: for every tracked user and every sequence of `AddedToMempool`
websocket messages processed by `WalletManager`, the in-memory UTXO ledger
never contains two entries with the same `(txid, outIdx)`; and
redelivering a mempool notification already recorded leaves the ledger
unchanged (exactly one Utxo entry exists for that outpoint). -/
theorem claim_C1_no_double_count (st : WalletState) (msgs : List WsMsg)
    (m : WsMsg) (hinv : ledgerNodup st) :
    ledgerNodup (processMsgs st msgs) ∧
    _chronikHandleWsMessage (_chronikHandleWsMessage (processMsgs st msgs) m) m
      = _chronikHandleWsMessage (processMsgs st msgs) m :=
  ⟨ledgerNodup_processMsgs st msgs hinv,
   handleWsMessage_idem (processMsgs st msgs) m⟩

/-- Witness for C1: one tracked user, the same mempool message delivered
and then redelivered. -/
theorem claim_C1_no_double_count_witness :
    ledgerNodup exSt1 ∧
    (ledgerNodup (processMsgs exSt1 [exMsg1]) ∧
     _chronikHandleWsMessage
        (_chronikHandleWsMessage (processMsgs exSt1 [exMsg1]) exMsg1) exMsg1
       = _chronikHandleWsMessage (processMsgs exSt1 [exMsg1]) exMsg1) :=
  ⟨by unfold ledgerNodup; decide,
   claim_C1_no_double_count exSt1 [exMsg1] exMsg1 (by unfold ledgerNodup; decide)⟩

/-! ### C2 — compensating delete on failed broadcast -/

theorem isWithdrawTx_deleteWithdrawal_self (db : StoreState) (t : String) :
    isWithdrawTx (deleteWithdrawal db t) t = false := by
  simp only [isWithdrawTx, deleteWithdrawal, List.any_eq_false, List.mem_filter]
  intro w hw
  simpa using hw.2

theorem isGiveTx_deleteGive_self (db : StoreState) (t : String) :
    isGiveTx (deleteGive db t) t = false := by
  simp only [isGiveTx, deleteGive, List.any_eq_false, List.mem_filter]
  intro g hg
  simpa using hg.2

/-- **C2**: when broadcast fails, the handler deletes the Withdrawal (resp.
Give) record persisted before the broadcast, so afterwards the store holds
no record for the attempted txid (the txid of the freshly built
transaction, which had no record before the command ran). -/
theorem claim_C2_compensating_delete (env env2 : TransferEnv) (s s2 : SysState)
    (av own : Bool) (a u fa fu tu p : String) (sats sats2 : Int)
    (hbw : env.broadcastOk = false)
    (hpre : isWithdrawTx s.db env.txid = false)
    (hbg : env2.broadcastOk = false)
    (hpreg : isGiveTx s2.db env2.txid = false) :
    isWithdrawTx (processWithdrawCommand env s av own a u sats).state.db
        env.txid = false ∧
    isGiveTx (processGiveCommand env2 s2 fa fu tu p sats2).state.db
        env2.txid = false := by
  constructor
  · unfold processWithdrawCommand
    split
    · exact hpre
    split
    · exact hpre
    split
    · exact hpre
    try dsimp only
    split
    · exact hpre
    split
    · exact hpre
    · exact hpre
    · try dsimp only
      rw [hbw]
      simp only [Bool.false_eq_true, if_false]
      exact isWithdrawTx_deleteWithdrawal_self _ _
  · unfold processGiveCommand
    split
    · exact hpreg
    try dsimp only
    split
    · exact hpreg
    split
    · exact hpreg
    · exact hpreg
    · try dsimp only
      rw [hbg]
      simp only [Bool.false_eq_true, if_false]
      exact isGiveTx_deleteGive_self _ _

/-- Witness for C2: a withdrawal and a give that build, persist, and then
fail to broadcast against an empty store. -/
theorem claim_C2_compensating_delete_witness :
    isWithdrawTx (processWithdrawCommand envFail sysC5 true false "a1" "u1"
        10000).state.db "t1" = false ∧
    isGiveTx (processGiveCommand envFail sysC5 "a1" "u1" "u2" "telegram"
        10000).state.db "t1" = false :=
  claim_C2_compensating_delete envFail envFail sysC5 sysC5 true false
    "a1" "u1" "a1" "u1" "u2" "telegram" 10000 10000
    (by decide) (by decide) (by decide) (by decide)

/-! ### C3 — exhausted inputs: no InsufficientFunds error is raised -/

/-- Counterexample to **C3** as stated: a user whose single 100-sat UTXO
cannot cover a 1000-sat output.  The builder does not fail with an
`InsufficientFunds` error result — the JS function falls off its user
loop and returns `undefined` (the caller's later `tx.txid` access is what
throws, a generic `TypeError`). -/
theorem claim_C3_counterexample :
    _genTx stC3 ["u1"] 1000 2 226 546 = .undefined ∧
    (_genTx stC3 ["u1"] 1000 2 226 546).isError = false := by decide

/-- **C3** amended: when all candidate users' UTXOs are exhausted without
the accumulated input value covering the requested amount, `_genTx`
returns `undefined` — no transaction and no raised error — and the wallet
ledger is untouched (the builder only reads `keys`); the
insufficient-funds condition is surfaced by the caller's balance check
before the builder runs, not by an `InsufficientFunds` error from the
builder. -/
theorem claim_C3_amended (st : WalletState) (uids : List String)
    (outSats feeRate estSize dustLimit : Int)
    (hnn : ∀ uid ∈ uids,
      ∀ u ∈ ((lookupKey st uid).getD ⟨"", []⟩).utxos, 0 ≤ u.value)
    (hlt : totalValue st uids < outSats) :
    _genTx st uids outSats feeRate estSize dustLimit = .undefined ∧
    (_genTx st uids outSats feeRate estSize dustLimit).isError = false := by
  have h : _genTx st uids outSats feeRate estSize dustLimit = .undefined :=
    genTx_go_undefined st outSats feeRate estSize dustLimit uids [] 0 hnn
      (by omega)
  exact ⟨h, by rw [h]; rfl⟩

/-- Witness for C3 (amended) on a wallet holding 500 sats across two
UTXOs, asked for 2000 sats. -/
theorem claim_C3_amended_witness :
    _genTx stC3w ["u1"] 2000 2 226 546 = .undefined ∧
    (_genTx stC3w ["u1"] 2000 2 226 546).isError = false :=
  claim_C3_amended stC3w ["u1"] 2000 2 226 546 (by decide) (by decide)

/-! ### C4 — fee subtraction versus change output -/

/-- Counterexample to **C4** as stated: a single 10,000,100-sat UTXO
spent to send 10,000,000 sats at fee 452.  The input value does not equal
the requested amount, yet the destination output is 9,999,548 — the fee
is subtracted whenever the surplus is smaller than the fee
(`outSats + txFee > inputAmount`), not only on exact equality. -/
theorem claim_C4_counterexample :
    _genTx stC4small ["u1"] 10000000 2 226 546
      = .tx ⟨[⟨"w2", 0, 10000100⟩], 9999548, none⟩ ∧
    (9999548 : Int) ≠ 10000000 := by decide

/-- **C4** amended: for every successfully built transaction, the
destination output is `outSats - txFee` exactly when
`outSats + txFee > inputAmount` (which includes, but is not limited to,
input value equal to the requested amount), and `outSats` otherwise, with
the change output absorbing `inputAmount - dest - txFee` when above dust;
concretely, spending a 50,000,000-sat UTXO to send 10,000,000 sats at fee
rate 2 with estimated size 226 yields destination 10,000,000 exactly and
change 39,999,548. -/
theorem claim_C4_amended (st : WalletState) (uids : List String)
    (outSats feeRate estSize dustLimit : Int) (t : BuiltTx)
    (h : _genTx st uids outSats feeRate estSize dustLimit = .tx t) :
    (t.outSats = if outSats + estSize * feeRate > utxosValue t.inputs
        then outSats - estSize * feeRate else outSats) ∧
    t.change = changeOutput (utxosValue t.inputs) t.outSats
      (estSize * feeRate) dustLimit ∧
    _genTx stC4scenario ["u1"] 10000000 2 226 546
      = .tx ⟨[⟨"w1", 0, 50000000⟩], 10000000, some 39999548⟩ := by
  obtain ⟨h1, h2⟩ := genTx_built st outSats feeRate estSize dustLimit uids t h
  exact ⟨h1, h2, by decide⟩

/-- Witness for C4 (amended) at the spec's scenario-1 numbers. -/
theorem claim_C4_amended_witness :
    _genTx stC4scenario ["u1"] 10000000 2 226 546
      = .tx ⟨[⟨"w1", 0, 50000000⟩], 10000000, some 39999548⟩ :=
  (claim_C4_amended stC4scenario ["u1"] 10000000 2 226 546
    ⟨[⟨"w1", 0, 50000000⟩], 10000000, some 39999548⟩ (by decide)).2.2

end LotusBot

namespace LotusBot

/-! ### C5 — consumed UTXOs are not removed at broadcast time -/

/-- Counterexample to **C5** as stated: a successful give whose built
transaction consumes the giver's single UTXO `("d1", 0)`; immediately
after the successful broadcast that UTXO still sits in the wallet's
in-memory ledger — it is only removed later, when a balance query
reconciles the ledger against the node. -/
theorem claim_C5_counterexample :
    (processGiveCommand envOk sysC5 "a1" "u1" "u2" "telegram" 10000).outcome
      = .success "t1" ⟨[⟨"d1", 0, 1000000⟩], 10000, some 989548⟩ ∧
    lookupKey (processGiveCommand envOk sysC5 "a1" "u1" "u2" "telegram"
        10000).state.wallet "u1"
      = some ⟨"s1", [⟨"d1", 0, 1000000⟩]⟩ := by decide

/-- **C5** amended: neither the give nor the withdraw command modifies the
in-memory ledger after its balance-reconciliation step — in particular a
successful broadcast does not remove the consumed inputs.  The final
wallet state is either the initial one (validation exit before the
balance check) or exactly the reconciled one. -/
theorem claim_C5_amended (env env2 : TransferEnv) (s s2 : SysState)
    (av own : Bool) (a u fa fu tu p : String) (sats sats2 : Int) :
    ((processGiveCommand env s fa fu tu p sats).state.wallet = s.wallet ∨
     (processGiveCommand env s fa fu tu p sats).state.wallet
       = (getAccountBalance env.keep s.wallet fa).2) ∧
    ((processWithdrawCommand env2 s2 av own a u sats2).state.wallet
        = s2.wallet ∨
     (processWithdrawCommand env2 s2 av own a u sats2).state.wallet
       = (getAccountBalance env2.keep s2.wallet a).2) := by
  constructor
  · unfold processGiveCommand
    split
    · left; rfl
    try dsimp only
    split
    · right; rfl
    split
    · right; rfl
    · right; rfl
    · try dsimp only
      split
      · right; rfl
      · right; rfl
  · unfold processWithdrawCommand
    split
    · left; rfl
    split
    · left; rfl
    split
    · left; rfl
    try dsimp only
    split
    · right; rfl
    split
    · right; rfl
    · right; rfl
    · try dsimp only
      split
      · right; rfl
      · right; rfl

/-! ### C6 — self-deposit exclusion -/

/-- **C6**: a UTXO whose txid is a recorded Give never becomes a Deposit;
a UTXO whose txid is a recorded Withdrawal (and not a Give) becomes a
Deposit exactly when its output index differs from the withdrawal's
change output index. -/
theorem claim_C6_self_deposit_exclusion (db : StoreState) (idx : Nat)
    (u : AccountUtxo) :
    (isGiveTx db u.txid = true → handlerSaveDeposit db idx u = db) ∧
    (isGiveTx db u.txid = false → isWithdrawTx db u.txid = true →
      ((u.outIdx ≠ idx → handlerSaveDeposit db idx u
          = saveDeposit db ⟨u.txid, u.outIdx, u.value, u.userId⟩) ∧
       (u.outIdx = idx → handlerSaveDeposit db idx u = db))) := by
  refine ⟨?_, ?_⟩
  · intro hg
    unfold handlerSaveDeposit
    rw [hg]
    simp
  · intro hg hw
    refine ⟨?_, ?_⟩
    · intro hne
      unfold handlerSaveDeposit
      rw [hg, hw]
      have hb : (u.outIdx == idx) = false := by simpa using hne
      rw [hb]
      simp
    · intro heq
      unfold handlerSaveDeposit
      rw [hg, hw]
      have hb : (u.outIdx == idx) = true := by simpa using heq
      rw [hb]
      simp

/-- Witness for C6: against a store holding Give `tg` and Withdrawal `tw`
with change output index 1 — the withdrawal's non-change output becomes a
deposit, the give output and the withdrawal's change output do not. -/
theorem claim_C6_self_deposit_exclusion_witness :
    handlerSaveDeposit dbC6 1 ⟨"tw", 0, 7000, "ud"⟩
      = saveDeposit dbC6 ⟨"tw", 0, 7000, "ud"⟩ ∧
    handlerSaveDeposit dbC6 1 ⟨"tg", 0, 7000, "ud"⟩ = dbC6 ∧
    handlerSaveDeposit dbC6 1 ⟨"tw", 1, 7000, "ud"⟩ = dbC6 := by
  refine ⟨?_, ?_, ?_⟩
  · exact ((claim_C6_self_deposit_exclusion dbC6 1 ⟨"tw", 0, 7000, "ud"⟩).2
      (by decide) (by decide)).1 (by decide)
  · exact (claim_C6_self_deposit_exclusion dbC6 1 ⟨"tg", 0, 7000, "ud"⟩).1
      (by decide)
  · exact ((claim_C6_self_deposit_exclusion dbC6 1 ⟨"tw", 1, 7000, "ud"⟩).2
      (by decide) (by decide)).2 (by decide)

/-! ### C7 — validation rejections -/

/-- Counterexample to **C7** as stated: a `NaN` amount is not rejected by
the withdraw validation of `handler.ts` (`NaN < minimum` is false in JS
and this revision has no `isNaN` check), so the command proceeds past
validation — towards account resolution, balance check and transaction
generation — instead of returning a validation error; the give path's
minimum check passes `NaN` the same way. -/
theorem claim_C7_counterexample :
    withdrawValidate true JsNum.nan = .proceed ∧
    giveValidateRejects JsNum.nan = false := by decide

/-- **C7** amended: an invalid destination address or a below-minimum
integer amount is rejected before any account resolution, with no wallet
or store mutation and no broadcast attempt — a 500-sat give against the
1000-sat minimum is such a rejection — but a `NaN` amount passes the
validation prefix and the command proceeds. -/
theorem claim_C7_amended (env : TransferEnv) (s : SysState)
    (own : Bool) (a u fa fu tu p : String) (sats : Int)
    (hmin : sats < MIN_OUTPUT_AMOUNT) :
    processWithdrawCommand env s false own a u sats
        = ⟨.invalidAddress, s, false⟩ ∧
    processWithdrawCommand env s true own a u sats
        = ⟨.belowMinimum, s, false⟩ ∧
    processGiveCommand env s fa fu tu p sats = ⟨.belowMinimum, s, false⟩ ∧
    withdrawValidate true JsNum.nan = .proceed := by
  refine ⟨?_, ?_, ?_, rfl⟩
  · unfold processWithdrawCommand
    simp
  · unfold processWithdrawCommand
    simp [hmin]
  · unfold processGiveCommand
    simp [hmin]

/-- Witness for C7 (amended) at a 500-sat amount. -/
theorem claim_C7_amended_witness :
    processWithdrawCommand envOk sysC5 false false "a1" "u1" 500
        = ⟨.invalidAddress, sysC5, false⟩ ∧
    processWithdrawCommand envOk sysC5 true false "a1" "u1" 500
        = ⟨.belowMinimum, sysC5, false⟩ ∧
    processGiveCommand envOk sysC5 "a1" "u1" "u2" "telegram" 500
        = ⟨.belowMinimum, sysC5, false⟩ ∧
    withdrawValidate true JsNum.nan = .proceed :=
  claim_C7_amended envOk sysC5 false "a1" "u1" "a1" "u1" "u2" "telegram" 500
    (by decide)

end LotusBot

namespace LotusBot

/-! ### C8 — startup deposit reconciliation -/

/-- Store fixture for C8: a Withdrawal `tw` and an existing Deposit
record for txid `t0`. -/
def dbC8 : StoreState := ⟨[], [⟨"tw", 5000, "uw"⟩], [⟨"t0", 0, 100, "u0"⟩]⟩

/-- Ledger snapshot for C8: the already-recorded UTXO of `t0` and a new
UTXO of `tn` the service missed while offline. -/
def utxosC8 : List AccountUtxo := [⟨"t0", 0, 100, "u0"⟩, ⟨"tn", 1, 200, "u1"⟩]

/-- **C8**: after startup reconciliation, a txid that already had a
Deposit record keeps exactly its records (the UTXO is left alone), and
every ledger UTXO with no Deposit record — provided the deposit-creation
path itself does not classify it as a self-generated give or
withdrawal-change output — has been backfilled with a Deposit record
through `Handler._saveDeposit`, the same path live mempool events take. -/
theorem claim_C8_startup_backfill (utxos : List AccountUtxo) (db : StoreState)
    (idx : Nat) (t : String) (u : AccountUtxo)
    (hrec : hasDepositForTxid db t = true)
    (humem : u ∈ utxos)
    (hno : hasDepositForTxid db u.txid = false)
    (hgive : isGiveTx db u.txid = false)
    (hwd : isWithdrawTx db u.txid = false ∨ u.outIdx ≠ idx) :
    (handlerInit utxos db idx).deposits.filter (fun d => d.txid == t)
        = db.deposits.filter (fun d => d.txid == t) ∧
    hasDepositForTxid (handlerInit utxos db idx) u.txid = true := by
  constructor
  · show ((utxos.filter
        (fun v => !(db.deposits.any (fun d => v.txid == d.txid)))).foldl
          (fun s v => handlerSaveDeposit s idx v) db).deposits.filter
        (fun d => d.txid == t)
      = db.deposits.filter (fun d => d.txid == t)
    obtain ⟨extra, he, hd⟩ := foldSave_deposits_append
      (utxos.filter (fun v => !(db.deposits.any (fun d => v.txid == d.txid))))
      idx db
    rw [he, List.filter_append]
    have hextra : extra.filter (fun d => d.txid == t) = [] := by
      rw [List.filter_eq_nil_iff]
      intro d hdm hbeq
      obtain ⟨v, hv, htx⟩ := hd d hdm
      have hvpred := (List.mem_filter.mp hv).2
      have hdt : d.txid = t := eq_of_beq hbeq
      have hvt : v.txid = t := htx.symm.trans hdt
      simp only [Bool.not_eq_eq_eq_not, Bool.not_true] at hvpred
      rw [hvt] at hvpred
      have : hasDepositForTxid db t = false := hvpred
      rw [this] at hrec
      exact Bool.noConfusion hrec
    rw [hextra, List.append_nil]
  · show hasDepositForTxid ((utxos.filter
        (fun v => !(db.deposits.any (fun d => v.txid == d.txid)))).foldl
          (fun s v => handlerSaveDeposit s idx v) db) u.txid = true
    apply foldSave_records
    · apply List.mem_filter.mpr
      refine ⟨humem, ?_⟩
      have : db.deposits.any (fun d => u.txid == d.txid) = false := hno
      rw [this]
      rfl
    · exact hgive
    · exact hwd

/-- Witness for C8: the recorded deposit `t0` is untouched, the missed
deposit `tn` is backfilled. -/
theorem claim_C8_startup_backfill_witness :
    (handlerInit utxosC8 dbC8 1).deposits.filter (fun d => d.txid == "t0")
        = dbC8.deposits.filter (fun d => d.txid == "t0") ∧
    hasDepositForTxid (handlerInit utxosC8 dbC8 1) "tn" = true :=
  claim_C8_startup_backfill utxosC8 dbC8 1 "t0" ⟨"tn", 1, 200, "u1"⟩
    (by decide) (by decide) (by decide) (by decide) (Or.inl (by decide))

end LotusBot

namespace LotusBot

/-! ### C9 and C10 — account linking via `updateKey` -/

theorem any_beq_eq_false_of_not_mem (l : List String) (u : String)
    (h : u ∉ l) : l.any (· == u) = false := by
  rw [List.any_eq_false]
  intro x hx
  by_cases hb : (x == u) = true
  · exact absurd (eq_of_beq hb ▸ hx) h
  · simpa using hb

/-- Wallet fixture for C9: user `u1` alone in account `A`, `u2` in `B`. -/
def exSt9 : WalletState :=
  ⟨[("A", ["u1"]), ("B", ["u2"])], [("u1", ⟨"k1", []⟩)]⟩

/-- Wallet fixture for C10: account `A` holds `x` and `y`; the linking
user `u9` is not a member of `A`. -/
def exSt10 : WalletState := ⟨[("A", ["x", "y"]), ("B", [])], []⟩

/-- **C9**: after `updateKey(user, A, B)` with `A ≠ B` and `user` listed
at most once in `A` (the one-account-per-user invariant), `user` is no
longer a member of `A`, is a member of `B`, and the `keys` map — signing
key, address, script and UTXO set of every user — is untouched. -/
theorem claim_C9_link_reassignment (st : WalletState) (u A B : String)
    (lA lB : List String) (hAB : A ≠ B)
    (hA : getAccount st.accounts A = some lA)
    (hB : getAccount st.accounts B = some lB)
    (hcount : lA.count u ≤ 1) :
    accountHasMemberB (updateKey st u A B).accounts A u = false ∧
    accountHasMemberB (updateKey st u A B).accounts B u = true ∧
    (updateKey st u A B).keys = st.keys := by
  have hABb : (A == B) = false := by
    by_cases h : (A == B) = true
    · exact absurd (eq_of_beq h) hAB
    · simpa using h
  have hBAb : (B == A) = false := by
    by_cases h : (B == A) = true
    · exact absurd (eq_of_beq h).symm hAB
    · simpa using h
  have hacc : (updateKey st u A B).accounts
      = updateEntry
          (updateEntry st.accounts A (fun l => jsSpliceFindRemove l u))
          B (fun l => l ++ [u]) := rfl
  have hAfter : getAccount (updateKey st u A B).accounts A
      = some (jsSpliceFindRemove lA u) := by
    rw [hacc, getAccount_updateEntry, getAccount_updateEntry, hA]
    simp [hABb]
  have hBfter : getAccount (updateKey st u A B).accounts B
      = some (lB ++ [u]) := by
    rw [hacc, getAccount_updateEntry, getAccount_updateEntry, hB]
    simp [hBAb]
  refine ⟨?_, ?_, rfl⟩
  · unfold accountHasMemberB
    rw [hAfter]
    exact any_beq_eq_false_of_not_mem _ u (not_mem_jsSplice lA u hcount)
  · unfold accountHasMemberB
    rw [hBfter]
    rw [List.any_eq_true]
    exact ⟨u, List.mem_append_right lB (List.mem_singleton_self u),
      beq_self_eq_true u⟩

/-- Witness for C9: `u1` moves from account `A` to account `B`. -/
theorem claim_C9_link_reassignment_witness :
    accountHasMemberB (updateKey exSt9 "u1" "A" "B").accounts "A" "u1"
        = false ∧
    accountHasMemberB (updateKey exSt9 "u1" "A" "B").accounts "B" "u1"
        = true ∧
    (updateKey exSt9 "u1" "A" "B").keys = exSt9.keys :=
  claim_C9_link_reassignment exSt9 "u1" "A" "B" ["u1"] ["u2"]
    (by decide) (by decide) (by decide) (by decide)

/-- **C10**: `updateKey` updates account `A` to the `findIndex`/`splice`
result; when the user is a member of `A` every other user's membership in
`A` is preserved, but when the user is *not* a member, `findIndex`
returns `-1` and `splice(-1, 1)` drops the final element of `A`'s member
list — evicting an unrelated user. -/
theorem claim_C10_update_key_eviction (st : WalletState) (u A B : String)
    (lA : List String) (hAB : A ≠ B)
    (hA : getAccount st.accounts A = some lA) :
    getAccount (updateKey st u A B).accounts A
        = some (jsSpliceFindRemove lA u) ∧
    (u ∈ lA → ∀ v, v ≠ u → (v ∈ jsSpliceFindRemove lA u ↔ v ∈ lA)) ∧
    (u ∉ lA → jsSpliceFindRemove lA u = lA.dropLast) := by
  have hABb : (A == B) = false := by
    by_cases h : (A == B) = true
    · exact absurd (eq_of_beq h) hAB
    · simpa using h
  have hacc : (updateKey st u A B).accounts
      = updateEntry
          (updateEntry st.accounts A (fun l => jsSpliceFindRemove l u))
          B (fun l => l ++ [u]) := rfl
  refine ⟨?_, ?_, ?_⟩
  · rw [hacc, getAccount_updateEntry, getAccount_updateEntry, hA]
    simp [hABb]
  · intro hu v hv
    exact mem_jsSplice_iff lA u v hu hv
  · intro hu
    exact jsSplice_of_not_mem lA u hu

/-- Witness for C10: `u9` is not a member of `A = ["x", "y"]`; linking it
away from `A` evicts `y`, the final member. -/
theorem claim_C10_update_key_eviction_witness :
    getAccount (updateKey exSt10 "u9" "A" "B").accounts "A" = some ["x"] := by
  have h := claim_C10_update_key_eviction exSt10 "u9" "A" "B" ["x", "y"]
    (by decide) (by decide)
  have h3 : jsSpliceFindRemove ["x", "y"] "u9" = ["x"] := by
    rw [h.2.2 (by decide)]
    rfl
  rw [h.1, h3]

end LotusBot
